import Mathlib

/-!
Verification of the MAAS node-allocation and boot-resource subsystems.

The repository under verification ships the test suites for the nodes API
(acquire / accept / release / list) and for `BootResourceStore`; the bodies of
those operations live outside the shipped sources, so the definitions below are
shallow embeddings reconstructed from the specification (and, where the
specification is silent, from the behaviour the shipped tests assert).
-/

namespace Maas

/-- Modelled from the spec: the node lifecycle status enumeration
(`NODE_STATUS` in `maasserver.enum`).  The spec names NEW, COMMISSIONING,
READY, RESERVED, ALLOCATED, RETIRED, DEPLOYING and DEPLOYED; the remaining
constructors fill out the enumeration used by `map_enum` in the tests. -/
inductive NodeStatus
  | NEW
  | COMMISSIONING
  | FAILED_TESTS
  | MISSING
  | READY
  | RESERVED
  | ALLOCATED
  | RETIRED
  | BROKEN
  | DEPLOYING
  | DEPLOYED
  deriving DecidableEq, Repr

/-- Modelled from the spec: the pure function `display_status(status) -> string`
(design note §9) giving the human-readable form used in error messages. -/
def displayStatus : NodeStatus → String
  | .NEW => "New"
  | .COMMISSIONING => "Commissioning"
  | .FAILED_TESTS => "Failed tests"
  | .MISSING => "Missing"
  | .READY => "Ready"
  | .RESERVED => "Reserved"
  | .ALLOCATED => "Allocated"
  | .RETIRED => "Retired"
  | .BROKEN => "Broken"
  | .DEPLOYING => "Deploying"
  | .DEPLOYED => "Deployed"

/-- Modelled from the spec: the essential attributes of a `Node` record
(spec §3).  Users, tokens, tags, zones, routers and networks are referenced
by name/key. -/
structure Node where
  system_id : String
  hostname : String := ""
  status : NodeStatus
  owner : Option String := none
  token : Option String := none
  agent_name : String := ""
  architecture : String := ""
  cpu_count : Nat := 0
  memory : Nat := 0
  tags : List String := []
  zone : String := ""
  routers : List String := []
  networks : List String := []
  deriving DecidableEq, Repr

/-- Modelled from the spec: the requesting user of a bulk operation; the
permission model needs only the username and the admin flag. -/
structure Requester where
  username : String
  is_admin : Bool
  deriving DecidableEq, Repr

/-- Modelled from the spec: the normalized constraint object produced by
`ConstraintParser.parse` (spec §4.1).  Absent keys are `none` / `[]`. -/
structure Constraint where
  name : Option String := none
  arch : Option String := none
  cpu_count : Option Nat := none
  mem : Option Nat := none
  tags : List String := []
  not_tags : List String := []
  zone : Option String := none
  not_in_zone : List String := []
  connected_to : List String := []
  not_connected_to : List String := []
  networks : List String := []
  not_networks : List String := []
  deriving DecidableEq, Repr

/-- Modelled from the spec: the conjunction of the constraint predicates of
spec §4.1 applied to a candidate node (`name` matches hostname or system_id;
`cpu_count`/`mem` are lower bounds; tag/zone/router/network constraints are
set inclusions/exclusions). -/
def nodeMatches (c : Constraint) (n : Node) : Bool :=
  (match c.name with
   | none => true
   | some s => n.hostname == s || n.system_id == s) &&
  (match c.arch with
   | none => true
   | some a => n.architecture == a) &&
  (match c.cpu_count with
   | none => true
   | some k => decide (k ≤ n.cpu_count)) &&
  (match c.mem with
   | none => true
   | some m => decide (m ≤ n.memory)) &&
  c.tags.all (fun t => n.tags.contains t) &&
  c.not_tags.all (fun t => ! n.tags.contains t) &&
  (match c.zone with
   | none => true
   | some z => n.zone == z) &&
  (! c.not_in_zone.contains n.zone) &&
  c.connected_to.all (fun m => n.routers.contains m) &&
  c.not_connected_to.all (fun m => ! n.routers.contains m) &&
  c.networks.all (fun w => n.networks.contains w) &&
  c.not_networks.all (fun w => ! n.networks.contains w)

/-- Modelled from the spec: a node is eligible for selection exactly when its
status is READY and its owner is unset (spec §3 invariants, §4.2). -/
def nodeAvailable (n : Node) : Bool :=
  n.status == .READY && n.owner == none

/-- Modelled from the spec: `NodeSelector.select` (spec §4.2) — filter the pool
(given in ascending creation order) down to available nodes satisfying every
constraint predicate, and return the first match; `none` is the NoMatch
failure rendered as HTTP 409. -/
def select (pool : List Node) (c : Constraint) : Option Node :=
  (pool.filter (fun n => nodeAvailable n && nodeMatches c n)).head?

/-- Look a node up by `system_id` in the persisted pool (lookup-by-id of
spec §6); the pool is kept in ascending creation order. -/
def findNode (db : List Node) (i : String) : Option Node :=
  db.find? (fun n => n.system_id == i)

/-- Modelled from the spec: the statuses from which `accept` may transition a
node (the "acceptable" set of spec §4.4). -/
def acceptStatuses : List NodeStatus :=
  [.NEW, .COMMISSIONING, .READY]

/-- Modelled from the spec: `RELEASABLE_STATUSES` — the ownership-bearing
statuses from which `release` transitions a node back to READY (spec §3
lifecycle; the shipped tests import it from `maasserver.models.node`). -/
def releasableStatuses : List NodeStatus :=
  [.ALLOCATED, .RESERVED, .BROKEN, .DEPLOYING, .DEPLOYED]

/-- Modelled from the spec: the edit-permission check scoping `release`
(spec §4.4(a), §9): an admin may edit any node, a plain user only a node they
own — the shipped test makes an ownerless node non-editable by a plain user. -/
def canEdit (u : Requester) (n : Node) : Bool :=
  u.is_admin || n.owner == some u.username

/-- Outcome of the bulk `accept` operation (spec §4.4): success list of
accepted system_ids, or an aborting failure carrying the offending ids. -/
inductive AcceptResult
  | ok (accepted : List String)
  | unknown (missing : List String)
  | conflict (offending : List (String × String))
  deriving DecidableEq, Repr

/-- Outcome of the bulk `release` operation (spec §4.4). -/
inductive ReleaseResult
  | ok (released : List String)
  | unknown (missing : List String)
  | forbidden (denied : List String)
  | conflict (failed : List (String × String))
  deriving DecidableEq, Repr

/-- The 400 "Unknown node(s)" message shared by `accept` and `release`. -/
def unknownMessage (missing : List String) : String :=
  "Unknown node(s): " ++ String.intercalate ", " missing ++ "."

/-- The requested ids matching no node at all. -/
def missingIds (db : List Node) (ids : List String) : List String :=
  ids.filter (fun i => (findNode db i).isNone)

/-- The nodes the requested ids resolve to. -/
def foundNodes (db : List Node) (ids : List String) : List Node :=
  ids.filterMap (findNode db)

/-- The requested nodes whose status is outside the acceptable set. -/
def acceptBad (db : List Node) (ids : List String) : List Node :=
  (foundNodes db ids).filter (fun n => ! acceptStatuses.contains n.status)

/-- The system_ids of the requested nodes an accept actually transitions
(those in status NEW). -/
def acceptNew (db : List Node) (ids : List String) : List String :=
  ((foundNodes db ids).filter (fun n => n.status == .NEW)).map (fun n => n.system_id)

/-- Per-node effect of a successful accept batch: a requested NEW node starts
commissioning, every other node is untouched. -/
def acceptApply (ids : List String) (n : Node) : Node :=
  if ids.contains n.system_id && n.status == .NEW
  then { n with status := .COMMISSIONING } else n

/-- Modelled from the spec: bulk `accept(ids, requester)` (spec §4.4).
Unknown ids abort with BAD_REQUEST listing every missing id; ids found in a
status outside the acceptable set abort with CONFLICT naming each offending
node with its display status; otherwise every NEW node is transitioned to
COMMISSIONING and listed as actually accepted, while nodes already
COMMISSIONING or READY are accepted as no-ops (left unchanged and not listed)
— the behaviour the shipped test `test_POST_accept_returns_actually_accepted_nodes`
asserts. -/
def accept (db : List Node) (ids : List String) : AcceptResult × List Node :=
  if missingIds db ids = [] then
    if acceptBad db ids = [] then
      (.ok (acceptNew db ids), db.map (acceptApply ids))
    else
      (.conflict ((acceptBad db ids).map (fun n => (n.system_id, displayStatus n.status))), db)
  else
    (.unknown (missingIds db ids), db)

/-- Modelled from the spec: the per-node effect of a successful release
(spec §4.3/§4.4(c)): status back to READY with owner, token and agent_name
cleared. -/
def releaseOne (n : Node) : Node :=
  { n with status := .READY, owner := none, token := none, agent_name := "" }

/-- The requested nodes the requester may not edit. -/
def releaseDenied (db : List Node) (u : Requester) (ids : List String) : List Node :=
  (foundNodes db ids).filter (fun n => ! canEdit u n)

/-- The requested nodes that are neither releasable nor already READY. -/
def releaseFailed (db : List Node) (ids : List String) : List Node :=
  (foundNodes db ids).filter
    (fun n => ! (releasableStatuses.contains n.status || n.status == .READY))

/-- The system_ids of the requested nodes a release actually modifies (those
in a releasable status; nodes already READY are untouched and unlisted). -/
def releasedIds (db : List Node) (ids : List String) : List String :=
  ((foundNodes db ids).filter (fun n => releasableStatuses.contains n.status)).map
    (fun n => n.system_id)

/-- Per-node effect of a successful release batch. -/
def releaseApply (ids : List String) (n : Node) : Node :=
  if ids.contains n.system_id && releasableStatuses.contains n.status
  then releaseOne n else n

/-- Modelled from the spec: bulk `release(ids, requester)` (spec §4.4).
Unknown ids abort with BAD_REQUEST; any node the requester may not edit
aborts the whole call with FORBIDDEN naming every such node and leaves every
node untouched; any node outside the releasable set ∪ {READY} aborts with
CONFLICT recording "system_id (display_status)" pairs; otherwise every node
in a releasable status is transitioned to READY (owner/token/agent_name
cleared) and listed, while nodes already READY are untouched and unlisted. -/
def release (db : List Node) (u : Requester) (ids : List String) :
    ReleaseResult × List Node :=
  if missingIds db ids = [] then
    if releaseDenied db u ids = [] then
      if releaseFailed db ids = [] then
        (.ok (releasedIds db ids), db.map (releaseApply ids))
      else
        (.conflict ((releaseFailed db ids).map
          (fun n => (n.system_id, displayStatus n.status))), db)
    else
      (.forbidden ((releaseDenied db u ids).map (fun n => n.system_id)), db)
  else
    (.unknown (missingIds db ids), db)

/-- Modelled from the spec: the `list` operation's id filter (spec §6): return
the nodes whose `system_id` was requested, in pool (ascending id) order; ids
matching no node are silently ignored and can produce no failure. -/
def list_nodes (db : List Node) (ids : List String) : List Node :=
  db.filter (fun n => ids.contains n.system_id)

/-- Split a character list at separator characters, accumulating the current
word in reverse; empty words are dropped. -/
def splitChars (sep : Char → Bool) : List Char → List Char → List String
  | cur, [] => if cur = [] then [] else [String.mk cur.reverse]
  | cur, ch :: rest =>
    if sep ch then
      (if cur = [] then [] else [String.mk cur.reverse]) ++ splitChars sep [] rest
    else splitChars sep (ch :: cur) rest

/-- Modelled from the spec: normalization of the raw `tags` constraint value —
comma-separated, space-separated or mixed input becomes a list of trimmed
tag names (spec §4.1). -/
def splitTags (s : String) : List String :=
  splitChars (fun ch => ch == ',' || ch == ' ') [] s.toList

/-- The requested tag names that exist in no `Tag` record. -/
def unknownTags (existing requested : List String) : List String :=
  requested.filter (fun t => ! existing.contains t)

/-- A single quote character, used when error messages quote tag names. -/
def sq : String := String.singleton (Char.ofNat 39)

/-- Render the 400 payload for unknown tag names, quoting each one. -/
def unknownTagsMessage (unknown : List String) : String :=
  "No such tag(s): " ++ String.intercalate ", " (unknown.map (fun t => sq ++ t ++ sq)) ++ "."

/-- Outcome of validating the `tags` constraint against the set of existing
tag names. -/
inductive TagsCheck
  | ok (tags : List String)
  | bad (payload : String)
  deriving DecidableEq, Repr

/-- Modelled from the spec: validation of the `tags` constraint (spec §4.1):
unknown tag name(s) produce a BAD_REQUEST naming each unknown tag; otherwise
the normalized tag list is accepted. -/
def validateTags (existing : List String) (raw : String) : TagsCheck :=
  let requested := splitTags raw
  let unknown := unknownTags existing requested
  if unknown = [] then .ok requested
  else .bad (unknownTagsMessage unknown)

/-- Modelled from the spec: a content-addressed `LargeFile` row, keyed by
checksum with its total size (spec §3). -/
structure LargeFile where
  lf_id : Nat
  sha256 : String
  total_size : Nat
  deriving DecidableEq, Repr

/-- Modelled from the spec: a `BootResourceFile` within one resource set,
keyed by filetype and referencing its backing `LargeFile` by id. -/
structure ResourceFile where
  file_id : Nat
  filetype : String
  largefile : Option Nat
  deriving DecidableEq, Repr

/-- Modelled from the spec: the part of a simplestreams product descriptor
that `insert` consumes — the target filetype and the content checksum and
size. -/
structure Product where
  filetype : String
  sha256 : String
  size : Nat
  deriving DecidableEq, Repr

/-- Modelled from the spec: the persisted state `BootResourceStore.insert`
manipulates — the `LargeFile` table and the files of the resource set being
synced, plus a fresh-id counter standing for the database's id sequence. -/
structure Store where
  next_id : Nat
  largefiles : List LargeFile
  files : List ResourceFile
  deriving DecidableEq, Repr

/-- Look a `LargeFile` row up by id. -/
def findLF (lfs : List LargeFile) (i : Nat) : Option LargeFile :=
  lfs.find? (fun lf => lf.lf_id == i)

/-- Number of resource files referencing the `LargeFile` with id `i`. -/
def refCount (files : List ResourceFile) (i : Nat) : Nat :=
  (files.filter (fun f => f.largefile == some i)).length

/-- Modelled from the spec: the `LargeFile` a rebinding insert will use —
reuse an existing row with matching checksum+size (no write scheduled,
boolean `false`), otherwise create a fresh row and schedule the content write
(spec §4.5). -/
def pickLF (st : Store) (p : Product) : LargeFile × Store × Bool :=
  match st.largefiles.find? (fun lf => lf.sha256 == p.sha256 && lf.total_size == p.size) with
  | some lf => (lf, st, false)
  | none =>
    let lf : LargeFile := ⟨st.next_id, p.sha256, p.size⟩
    (lf, { st with next_id := st.next_id + 1, largefiles := st.largefiles ++ [lf] }, true)

/-- Delete the stale previous `LargeFile` `prev` exactly when no file
references it any more (spec §4.5). -/
def deleteIfUnref (st : Store) (prev : Option Nat) : Store :=
  match prev with
  | none => st
  | some i =>
    if refCount st.files i == 0 then
      { st with largefiles := st.largefiles.filter (fun l => ! (l.lf_id == i)) }
    else st

/-- Modelled from the spec: the tail of `insert` once the target file needs a
(re)backing `LargeFile`: pick (or create) the matching row, repoint the file,
then delete the stale previous `LargeFile` `prev` if unreferenced
(spec §4.5). -/
def insertNew (st : Store) (p : Product) (rfile : ResourceFile) (prev : Option Nat) :
    Store × Bool :=
  let res := pickLF st p
  let st2 := { res.2.1 with files := res.2.1.files.map (fun f =>
    if f.file_id == rfile.file_id then { f with largefile := some res.1.lf_id } else f) }
  (deleteIfUnref st2 prev, res.2.2)

/-- Modelled from the spec: the get-or-create step of `insert` — look the
resource file up by the product's filetype in the resource set being synced,
creating it (with no backing `LargeFile` yet) if absent (spec §4.5). -/
def getOrCreateFile (st0 : Store) (p : Product) : ResourceFile × Store :=
  match st0.files.find? (fun f => f.filetype == p.filetype) with
  | some f => (f, st0)
  | none =>
    let f : ResourceFile := ⟨st0.next_id, p.filetype, none⟩
    (f, { st0 with next_id := st0.next_id + 1, files := st0.files ++ [f] })

/-- Modelled from the spec: `BootResourceStore.insert(product, reader)`
(spec §4.5) — get-or-create the resource file for the product's filetype; if
its current `LargeFile` matches the product's checksum and size, reuse it and
schedule no write; otherwise rebind the file via `insertNew`, remembering the
mismatching previous `LargeFile` for conditional deletion.  The returned
boolean says whether `save_content_later` was scheduled. -/
def insert (st0 : Store) (p : Product) : Store × Bool :=
  let pr := getOrCreateFile st0 p
  match pr.1.largefile.bind (findLF pr.2.largefiles) with
  | some lf =>
    if lf.sha256 == p.sha256 && lf.total_size == p.size then (pr.2, false)
    else insertNew pr.2 p pr.1 (some lf.lf_id)
  | none => insertNew pr.2 p pr.1 none

/-- Modelled from the spec: one `BootResourceSet`, with its insertion-order id
(larger = more recent) and whether it is complete (all files present with
matching checksums), abstracted to a flag as design note §9 suggests. -/
structure BRSet where
  set_id : Nat
  complete : Bool
  deriving DecidableEq, Repr

/-- Modelled from the spec: a `BootResource` owning its sets. -/
structure Resource where
  res_id : Nat
  sets : List BRSet
  deriving DecidableEq, Repr

/-- Fold picking the set with the largest `set_id` from a list, starting from
an optional accumulator. -/
def pickNewest : Option BRSet → List BRSet → Option BRSet
  | acc, [] => acc
  | none, s :: rest => pickNewest (some s) rest
  | some m, s :: rest => pickNewest (some (if m.set_id < s.set_id then s else m)) rest

/-- The most recent complete set of a resource, if any. -/
def newestComplete (sets : List BRSet) : Option BRSet :=
  pickNewest none (sets.filter (fun s => s.complete))

/-- Modelled from the spec: per-resource effect of `resource_set_cleaner`:
every incomplete set is deleted and only the most recent complete set is
kept (spec §4.5). -/
def cleanSets (sets : List BRSet) : List BRSet :=
  match newestComplete sets with
  | none => []
  | some m => [m]

/-- Modelled from the spec: `resource_set_cleaner()` (spec §4.5) — clean each
resource's sets, then delete any resource left with zero sets. -/
def resource_set_cleaner (rs : List Resource) : List Resource :=
  (rs.map (fun r => { r with sets := cleanSets r.sets })).filter
    (fun r => ! r.sets.isEmpty)

/-! ## Example records used by the concrete witnesses -/

/-- The cpu=1 READY node of the spec §8 example scenario. -/
def exNodeA : Node := { system_id := "node-a", hostname := "host-a", status := .READY, cpu_count := 1 }

/-- The cpu=3 READY node of the spec §8 example scenario. -/
def exNodeB : Node := { system_id := "node-b", hostname := "host-b", status := .READY, cpu_count := 3 }

/-- The two-node pool of the spec §8 example scenario. -/
def exPool : List Node := [exNodeA, exNodeB]

/-- The `cpu_count=2` constraint of the spec §8 example scenario. -/
def exCpu : Constraint := { cpu_count := some 2 }

/-! ## Shared helper lemmas -/

theorem findNode_mem {db : List Node} {i : String} {n : Node}
    (h : findNode db i = some n) : n ∈ db :=
  List.mem_of_find?_eq_some h

theorem findNode_id {db : List Node} {i : String} {n : Node}
    (h : findNode db i = some n) : n.system_id = i := by
  have hp := List.find?_some h
  simpa using hp

theorem missingIds_nil {db : List Node} {ids : List String}
    (hfound : ∀ i ∈ ids, (findNode db i).isSome = true) :
    missingIds db ids = [] := by
  unfold missingIds
  rw [List.filter_eq_nil_iff]
  intro i hi
  have h := hfound i hi
  cases hf : findNode db i with
  | none => rw [hf] at h; simp at h
  | some n => simp

theorem mem_foundNodes {db : List Node} {ids : List String} {n : Node} :
    n ∈ foundNodes db ids ↔ ∃ i ∈ ids, findNode db i = some n := by
  unfold foundNodes
  exact List.mem_filterMap

/-! ## Theorems -/

/-- C1: for every pool and constraint set, `select` returns only a node that
is available (status READY, owner unset) and satisfies every given constraint
predicate conjunctively, and it returns the NoMatch failure (`none`, rendered
as HTTP 409) exactly when no node in the pool satisfies them all. -/
theorem select_returns_only_matching_available (pool : List Node) (c : Constraint) :
    (∀ n, select pool c = some n →
        n ∈ pool ∧ nodeAvailable n = true ∧ nodeMatches c n = true) ∧
    (select pool c = none ↔
        ∀ n ∈ pool, ¬(nodeAvailable n = true ∧ nodeMatches c n = true)) := by
  constructor
  · intro n h
    unfold select at h
    have hmem : n ∈ pool.filter (fun m => nodeAvailable m && nodeMatches c m) :=
      List.mem_of_mem_head? (Option.mem_def.mpr h)
    rcases List.mem_filter.mp hmem with ⟨hp, hb⟩
    simp only [Bool.and_eq_true] at hb
    exact ⟨hp, hb.1, hb.2⟩
  · unfold select
    rw [List.head?_eq_none_iff, List.filter_eq_nil_iff]
    simp only [Bool.and_eq_true]

/-- Witness for C1 at the spec §8 example: `select` on pool A(cpu=1),B(cpu=3)
with `cpu_count=2` yields node B, which is available and matches. -/
theorem select_returns_only_matching_available_witness :
    exNodeB ∈ exPool ∧ nodeAvailable exNodeB = true ∧ nodeMatches exCpu exNodeB = true :=
  (select_returns_only_matching_available exPool exCpu).1 exNodeB (by decide)

/-- C10: the `list` operation's id filter silently ignores ids matching no
node: the result is exactly the existing nodes whose system_id was requested,
it coincides with the result for the known-id sublist, and it is the empty
list (not an error — `list_nodes` has no failure outcome) when no id
matches. -/
theorem list_ignores_unknown_ids (db : List Node) (ids : List String) :
    (∀ n, n ∈ list_nodes db ids ↔ n ∈ db ∧ n.system_id ∈ ids) ∧
    list_nodes db ids = list_nodes db (ids.filter (fun i => (findNode db i).isSome)) ∧
    ((∀ i ∈ ids, findNode db i = none) → list_nodes db ids = []) := by
  refine ⟨?_, ?_, ?_⟩
  · intro n
    unfold list_nodes
    rw [List.mem_filter]
    simp
  · unfold list_nodes
    apply List.filter_congr
    intro n hn
    by_cases hid : n.system_id ∈ ids
    · have hsome : (findNode db n.system_id).isSome = true := by
        apply List.find?_isSome.mpr
        exact ⟨n, hn, by simp⟩
      have hmem : n.system_id ∈ ids.filter (fun i => (findNode db i).isSome) :=
        List.mem_filter.mpr ⟨hid, hsome⟩
      simp [hid, hmem]
    · have hnmem : n.system_id ∉ ids.filter (fun i => (findNode db i).isSome) := by
        intro hc
        exact hid (List.mem_filter.mp hc).1
      simp [hid, hnmem]
  · intro hall
    unfold list_nodes
    rw [List.filter_eq_nil_iff]
    intro n hn hc
    have hid : n.system_id ∈ ids := by simpa using hc
    have hnone := hall n.system_id hid
    unfold findNode at hnone
    rw [List.find?_eq_none] at hnone
    exact absurd (by simp : (n.system_id == n.system_id) = true) (hnone n hn)

/-- Witness for C10: one known and one unknown id — the response is exactly
the node with the known id. -/
theorem list_ignores_unknown_ids_witness :
    (exNodeA ∈ list_nodes exPool ["node-a", "node-ghost"] ↔
      exNodeA ∈ exPool ∧ exNodeA.system_id ∈ ["node-a", "node-ghost"]) ∧
    list_nodes exPool ["node-a", "node-ghost"] = [exNodeA] :=
  ⟨(list_ignores_unknown_ids exPool ["node-a", "node-ghost"]).1 exNodeA, by decide⟩

/-- C7: an acquire whose `tags` constraint names at least one nonexistent tag
fails with BAD_REQUEST whose payload names exactly the unknown tags — every
unknown requested tag and no existing one. -/
theorem acquire_unknown_tags_bad_request (existing : List String) (raw : String)
    (t : String) (ht : t ∈ splitTags raw) (hu : existing.contains t = false) :
    ∃ u, validateTags existing raw = .bad (unknownTagsMessage u) ∧
      t ∈ u ∧ (∀ s, s ∈ u ↔ s ∈ splitTags raw ∧ existing.contains s = false) := by
  have htu : t ∈ unknownTags existing (splitTags raw) :=
    List.mem_filter.mpr ⟨ht, by simpa using hu⟩
  refine ⟨unknownTags existing (splitTags raw), ?_, htu, ?_⟩
  · unfold validateTags
    rw [if_neg (List.ne_nil_of_mem htu)]
  · intro s
    unfold unknownTags
    rw [List.mem_filter]
    simp

/-- Witness for C7 at the spec §8 example: tags "fast, hairy, boo" with only
"fast" existing is rejected with the payload naming 'hairy' and 'boo'. -/
theorem acquire_unknown_tags_bad_request_witness :
    (∃ u, validateTags ["fast"] "fast, hairy, boo" = .bad (unknownTagsMessage u) ∧
      "hairy" ∈ u ∧
      (∀ s, s ∈ u ↔ s ∈ splitTags "fast, hairy, boo" ∧ (["fast"].contains s) = false)) ∧
    validateTags ["fast"] "fast, hairy, boo" =
      .bad ("No such tag(s): " ++ sq ++ "hairy" ++ sq ++ ", " ++ sq ++ "boo" ++ sq ++ ".") :=
  ⟨acquire_unknown_tags_bad_request ["fast"] "fast, hairy, boo" "hairy"
      (by decide) (by decide),
    by decide⟩

/-- A node already READY, used to exhibit the accept no-op behaviour. -/
def readyNode : Node := { system_id := "node-r", status := .READY }

/-- A NEW node awaiting acceptance. -/
def newNode : Node := { system_id := "node-n", status := .NEW }

/-- C2 counterexample: accepting a batch containing a READY node (READY is in
the acceptable set) does NOT transition it to COMMISSIONING nor include it in
the returned success list — the call succeeds with an empty success list and
the node keeps status READY, contradicting the claim that every node in
{NEW, COMMISSIONING, READY} is transitioned and listed. -/
theorem accept_ready_counterexample :
    (accept [readyNode] ["node-r"]).1 = .ok [] ∧
    (accept [readyNode] ["node-r"]).2 = [readyNode] ∧
    readyNode.status = .READY ∧ readyNode.status ≠ .COMMISSIONING := by
  decide

/-- C2 (amended): for every accept batch whose ids all resolve to nodes in
the acceptable set {NEW, COMMISSIONING, READY}, the call succeeds; each node
whose status is NEW is transitioned to COMMISSIONING and included in the
returned success list, while nodes already COMMISSIONING or READY are left
unchanged and excluded from the success list (only actually-accepted nodes
are returned). -/
theorem accept_transitions_new_only (db : List Node) (ids : List String)
    (hfound : ∀ i ∈ ids, (findNode db i).isSome = true)
    (hgood : ∀ i ∈ ids, (findNode db i).all
      (fun n => acceptStatuses.contains n.status) = true) :
    ∃ acc db2, accept db ids = (.ok acc, db2) ∧
      (∀ i ∈ ids, ∀ n, findNode db i = some n → n.status = .NEW → n.system_id ∈ acc) ∧
      (∀ s ∈ acc, ∃ n ∈ db, n.status = .NEW ∧ n.system_id = s ∧ s ∈ ids) ∧
      (∀ n ∈ db, n.system_id ∈ ids → n.status = .NEW →
          ({ n with status := .COMMISSIONING } : Node) ∈ db2) ∧
      (∀ n ∈ db, (n.status ≠ .NEW ∨ n.system_id ∉ ids) → n ∈ db2) := by
  have hmiss : missingIds db ids = [] := missingIds_nil hfound
  have hbad : acceptBad db ids = [] := by
    unfold acceptBad
    rw [List.filter_eq_nil_iff]
    intro n hn
    rcases mem_foundNodes.mp hn with ⟨i, hi, hf⟩
    have hg := hgood i hi
    rw [hf] at hg
    simp only [Option.all_some] at hg
    have hmem : n.status ∈ acceptStatuses := by simpa using hg
    simp [hmem]
  refine ⟨acceptNew db ids, db.map (acceptApply ids), ?_, ?_, ?_, ?_, ?_⟩
  · unfold accept
    rw [hmiss, hbad]
    simp
  · intro i hi n hf hnew
    unfold acceptNew
    apply List.mem_map.mpr
    refine ⟨n, List.mem_filter.mpr ⟨mem_foundNodes.mpr ⟨i, hi, hf⟩, by simp [hnew]⟩, rfl⟩
  · intro s hs
    rcases List.mem_map.mp hs with ⟨n, hnf, rfl⟩
    rcases List.mem_filter.mp hnf with ⟨hnfound, hnew⟩
    rcases mem_foundNodes.mp hnfound with ⟨i, hi, hf⟩
    exact ⟨n, findNode_mem hf, by simpa using hnew, rfl, (findNode_id hf) ▸ hi⟩
  · intro n hn hid hnew
    apply List.mem_map.mpr
    refine ⟨n, hn, ?_⟩
    unfold acceptApply
    rw [if_pos]
    simp [hnew, hid]
  · intro n hn hcond
    apply List.mem_map.mpr
    refine ⟨n, hn, ?_⟩
    unfold acceptApply
    rw [if_neg]
    intro hc
    rcases Bool.and_eq_true _ _ ▸ hc with ⟨h1, h2⟩
    rcases hcond with h | h
    · exact h (by simpa using h2)
    · exact h (by simpa using h1)

/-- Witness for C2 (amended): a batch of one NEW and one READY node — the NEW
node is commissioned and listed, the READY node untouched and unlisted. -/
theorem accept_transitions_new_only_witness :
    ∃ acc db2, accept [newNode, readyNode] ["node-n", "node-r"] = (.ok acc, db2) ∧
      (∀ i ∈ ["node-n", "node-r"], ∀ n,
        findNode [newNode, readyNode] i = some n → n.status = .NEW → n.system_id ∈ acc) ∧
      (∀ s ∈ acc, ∃ n ∈ [newNode, readyNode],
        n.status = .NEW ∧ n.system_id = s ∧ s ∈ ["node-n", "node-r"]) ∧
      (∀ n ∈ [newNode, readyNode], n.system_id ∈ ["node-n", "node-r"] → n.status = .NEW →
          ({ n with status := .COMMISSIONING } : Node) ∈ db2) ∧
      (∀ n ∈ [newNode, readyNode],
        (n.status ≠ .NEW ∨ n.system_id ∉ ["node-n", "node-r"]) → n ∈ db2) :=
  accept_transitions_new_only [newNode, readyNode] ["node-n", "node-r"]
    (by decide) (by decide)

/-- A DEPLOYED node, outside the acceptable set of `accept`. -/
def deployedNode : Node := { system_id := "node-d", status := .DEPLOYED }

/-- C5: an accept batch containing a found node whose status is outside the
acceptable set {NEW, COMMISSIONING, READY} fails as a whole with CONFLICT;
the offending list names each offending node's id with its display status
(and only offending nodes), and the pool — hence the offending node's
status — is left unchanged. -/
theorem accept_conflict_on_disallowed_status (db : List Node) (ids : List String)
    (hfound : ∀ i ∈ ids, (findNode db i).isSome = true)
    (n : Node) (hn : ∃ i ∈ ids, findNode db i = some n)
    (hbad : acceptStatuses.contains n.status = false) :
    ∃ off, accept db ids = (.conflict off, db) ∧
      (n.system_id, displayStatus n.status) ∈ off ∧
      (∀ m, (∃ i ∈ ids, findNode db i = some m) →
        acceptStatuses.contains m.status = false →
          (m.system_id, displayStatus m.status) ∈ off) ∧
      (∀ e ∈ off, ∃ m ∈ db, acceptStatuses.contains m.status = false ∧
          e = (m.system_id, displayStatus m.status) ∧ m.system_id ∈ ids) := by
  have hmiss := missingIds_nil hfound
  have hnmem : n ∈ acceptBad db ids :=
    List.mem_filter.mpr ⟨mem_foundNodes.mpr hn, by simpa using hbad⟩
  have hbadne : acceptBad db ids ≠ [] := List.ne_nil_of_mem hnmem
  refine ⟨(acceptBad db ids).map (fun m => (m.system_id, displayStatus m.status)),
    ?_, ?_, ?_, ?_⟩
  · simp [accept, hmiss, hbadne]
  · exact List.mem_map.mpr ⟨n, hnmem, rfl⟩
  · intro m hm hmbad
    exact List.mem_map.mpr
      ⟨m, List.mem_filter.mpr ⟨mem_foundNodes.mpr hm, by simpa using hmbad⟩, rfl⟩
  · intro e he
    rcases List.mem_map.mp he with ⟨m, hmf, rfl⟩
    rcases List.mem_filter.mp hmf with ⟨hmfound, hmbad⟩
    rcases mem_foundNodes.mp hmfound with ⟨i, hi, hf⟩
    exact ⟨m, findNode_mem hf, by simpa using hmbad, rfl, (findNode_id hf) ▸ hi⟩

/-- Witness for C5: accepting a READY and a DEPLOYED node fails with CONFLICT
naming the DEPLOYED node with its display status, leaving the pool as it
was. -/
theorem accept_conflict_on_disallowed_status_witness :
    ∃ off, accept [readyNode, deployedNode] ["node-r", "node-d"] =
        (.conflict off, [readyNode, deployedNode]) ∧
      (deployedNode.system_id, displayStatus deployedNode.status) ∈ off ∧
      (∀ m, (∃ i ∈ ["node-r", "node-d"], findNode [readyNode, deployedNode] i = some m) →
        acceptStatuses.contains m.status = false →
          (m.system_id, displayStatus m.status) ∈ off) ∧
      (∀ e ∈ off, ∃ m ∈ [readyNode, deployedNode],
        acceptStatuses.contains m.status = false ∧
          e = (m.system_id, displayStatus m.status) ∧ m.system_id ∈ ["node-r", "node-d"]) :=
  accept_conflict_on_disallowed_status [readyNode, deployedNode] ["node-r", "node-d"]
    (by decide) deployedNode (by decide) (by decide)

/-- C6: for both accept and release, a batch containing an id matching no
node aborts with BAD_REQUEST carrying the missing-id list M — every missing
id is in M, everything in M is a missing requested id (an ordering-insensitive
set characterization), the rendered message is "Unknown node(s): …", and the
pool is returned unmodified by both operations. -/
theorem unknown_ids_abort_accept_and_release (db : List Node) (u : Requester)
    (ids : List String) (i : String) (hi : i ∈ ids) (hmiss : findNode db i = none) :
    ∃ M, accept db ids = (.unknown M, db) ∧ release db u ids = (.unknown M, db) ∧
      i ∈ M ∧
      (∀ j ∈ ids, findNode db j = none → j ∈ M) ∧
      (∀ j ∈ M, j ∈ ids ∧ findNode db j = none) ∧
      unknownMessage M = "Unknown node(s): " ++ String.intercalate ", " M ++ "." := by
  have him : i ∈ missingIds db ids := List.mem_filter.mpr ⟨hi, by simp [hmiss]⟩
  have hne : missingIds db ids ≠ [] := List.ne_nil_of_mem him
  refine ⟨missingIds db ids, ?_, ?_, him, ?_, ?_, rfl⟩
  · simp [accept, hne]
  · simp [release, hne]
  · intro j hj hjn
    exact List.mem_filter.mpr ⟨hj, by simp [hjn]⟩
  · intro j hj
    rcases List.mem_filter.mp hj with ⟨hjids, hjn⟩
    refine ⟨hjids, ?_⟩
    cases hf : findNode db j with
    | none => rfl
    | some m => rw [hf] at hjn; simp at hjn

/-- Witness for C6: a batch naming one existing node and two ghosts aborts
both operations with exactly the two ghosts. -/
theorem unknown_ids_abort_accept_and_release_witness :
    ∃ M, accept [readyNode] ["node-r", "ghost1", "ghost2"] = (.unknown M, [readyNode]) ∧
      release [readyNode] ⟨"alice", false⟩ ["node-r", "ghost1", "ghost2"] =
        (.unknown M, [readyNode]) ∧
      "ghost1" ∈ M ∧
      (∀ j ∈ ["node-r", "ghost1", "ghost2"], findNode [readyNode] j = none → j ∈ M) ∧
      (∀ j ∈ M, j ∈ ["node-r", "ghost1", "ghost2"] ∧ findNode [readyNode] j = none) ∧
      unknownMessage M = "Unknown node(s): " ++ String.intercalate ", " M ++ "." :=
  unknown_ids_abort_accept_and_release [readyNode] ⟨"alice", false⟩
    ["node-r", "ghost1", "ghost2"] "ghost1" (by decide) (by decide)

/-- An ALLOCATED node owned (with token and agent_name) by user "alice". -/
def allocNode : Node :=
  { system_id := "node-al", status := .ALLOCATED, owner := some "alice",
    token := some "tok", agent_name := "ag" }

/-- A RESERVED node with no owner: a plain user may not edit it. -/
def reservedNode : Node := { system_id := "node-rv", status := .RESERVED }

/-- The plain (non-admin) user "alice". -/
def alice : Requester := { username := "alice", is_admin := false }

/-- C3: if the requester lacks edit permission on any node of a release
batch, the whole call fails FORBIDDEN naming exactly the nodes the requester
may not release (all of them and only them), and the pool is returned
unmodified — no node changes state, even if other nodes of the batch would
have been released. -/
theorem release_forbidden_aborts (db : List Node) (u : Requester) (ids : List String)
    (hfound : ∀ i ∈ ids, (findNode db i).isSome = true)
    (n : Node) (hn : ∃ i ∈ ids, findNode db i = some n)
    (hne : canEdit u n = false) :
    ∃ denied, release db u ids = (.forbidden denied, db) ∧
      n.system_id ∈ denied ∧
      (∀ m, (∃ i ∈ ids, findNode db i = some m) → canEdit u m = false →
          m.system_id ∈ denied) ∧
      (∀ s ∈ denied, ∃ m ∈ db, canEdit u m = false ∧ m.system_id = s ∧ s ∈ ids) := by
  have hmiss := missingIds_nil hfound
  have hnmem : n ∈ releaseDenied db u ids :=
    List.mem_filter.mpr ⟨mem_foundNodes.mpr hn, by simp [hne]⟩
  have hdne : releaseDenied db u ids ≠ [] := List.ne_nil_of_mem hnmem
  refine ⟨(releaseDenied db u ids).map (fun m => m.system_id), ?_, ?_, ?_, ?_⟩
  · simp [release, hmiss, hdne]
  · exact List.mem_map.mpr ⟨n, hnmem, rfl⟩
  · intro m hm hmne
    exact List.mem_map.mpr
      ⟨m, List.mem_filter.mpr ⟨mem_foundNodes.mpr hm, by simp [hmne]⟩, rfl⟩
  · intro s hs
    rcases List.mem_map.mp hs with ⟨m, hmd, rfl⟩
    rcases List.mem_filter.mp hmd with ⟨hmf, hmne⟩
    rcases mem_foundNodes.mp hmf with ⟨i, hi, hf⟩
    exact ⟨m, findNode_mem hf, by simpa using hmne, rfl, (findNode_id hf) ▸ hi⟩

/-- Witness for C3: a batch mixing alice's own ALLOCATED node (which would
release fine) with an ownerless RESERVED node fails FORBIDDEN naming exactly
the RESERVED node, with the pool unchanged. -/
theorem release_forbidden_aborts_witness :
    ∃ denied, release [allocNode, reservedNode] alice ["node-al", "node-rv"] =
        (.forbidden denied, [allocNode, reservedNode]) ∧
      reservedNode.system_id ∈ denied ∧
      (∀ m, (∃ i ∈ ["node-al", "node-rv"],
          findNode [allocNode, reservedNode] i = some m) →
        canEdit alice m = false → m.system_id ∈ denied) ∧
      (∀ s ∈ denied, ∃ m ∈ [allocNode, reservedNode],
        canEdit alice m = false ∧ m.system_id = s ∧ s ∈ ["node-al", "node-rv"]) :=
  release_forbidden_aborts [allocNode, reservedNode] alice ["node-al", "node-rv"]
    (by decide) reservedNode (by decide) (by decide)

/-- C4: a release batch of nodes the requester may edit, all releasable or
already READY, succeeds: every node in a releasable status is transitioned to
READY with owner, token and agent_name cleared (hence available — selectable
by a subsequent acquire) and is named in the success list; the success list
names only nodes that were in a releasable status, so nodes already READY are
left untouched and excluded from it; unrequested nodes are untouched. -/
theorem release_releases_and_skips_ready (db : List Node) (u : Requester)
    (ids : List String)
    (hfound : ∀ i ∈ ids, (findNode db i).isSome = true)
    (hedit : ∀ i ∈ ids, (findNode db i).all (fun n => canEdit u n) = true)
    (hstat : ∀ i ∈ ids, (findNode db i).all
        (fun n => releasableStatuses.contains n.status || n.status == .READY) = true) :
    ∃ rel db2, release db u ids = (.ok rel, db2) ∧
      (∀ i ∈ ids, ∀ n, findNode db i = some n →
        releasableStatuses.contains n.status = true →
          n.system_id ∈ rel ∧ releaseOne n ∈ db2 ∧
          nodeAvailable (releaseOne n) = true ∧ (releaseOne n).owner = none ∧
          (releaseOne n).token = none ∧ (releaseOne n).agent_name = "") ∧
      (∀ n ∈ db, n.status = .READY → n ∈ db2) ∧
      (∀ s ∈ rel, ∃ m ∈ db, releasableStatuses.contains m.status = true ∧
          m.system_id = s ∧ s ∈ ids) ∧
      (∀ n ∈ db, n.system_id ∉ ids → n ∈ db2) := by
  have hmiss := missingIds_nil hfound
  have hden : releaseDenied db u ids = [] := by
    unfold releaseDenied
    rw [List.filter_eq_nil_iff]
    intro n hn
    rcases mem_foundNodes.mp hn with ⟨i, hi, hf⟩
    have hg := hedit i hi
    rw [hf] at hg
    simp only [Option.all_some] at hg
    simp [hg]
  have hfail : releaseFailed db ids = [] := by
    unfold releaseFailed
    rw [List.filter_eq_nil_iff]
    intro n hn
    rcases mem_foundNodes.mp hn with ⟨i, hi, hf⟩
    have hg := hstat i hi
    rw [hf] at hg
    simp only [Option.all_some] at hg
    simp [hg]
    intro hnr
    rcases (Bool.or_eq_true _ _) ▸ hg with h | h
    · exact absurd (by simpa using h) hnr
    · simpa using h
  refine ⟨releasedIds db ids, db.map (releaseApply ids), ?_, ?_, ?_, ?_, ?_⟩
  · simp [release, hmiss, hden, hfail]
  · intro i hi n hf hrel
    have hmemid : n.system_id ∈ ids := (findNode_id hf) ▸ hi
    refine ⟨?_, ?_, rfl, rfl, rfl, rfl⟩
    · exact List.mem_map.mpr
        ⟨n, List.mem_filter.mpr ⟨mem_foundNodes.mpr ⟨i, hi, hf⟩, hrel⟩, rfl⟩
    · apply List.mem_map.mpr
      refine ⟨n, findNode_mem hf, ?_⟩
      have hrel2 : n.status ∈ releasableStatuses := by simpa using hrel
      unfold releaseApply
      rw [if_pos]
      simp [hmemid, hrel2]
  · intro n hn hrdy
    apply List.mem_map.mpr
    refine ⟨n, hn, ?_⟩
    unfold releaseApply
    rw [if_neg]
    intro hc
    rcases (Bool.and_eq_true _ _) ▸ hc with ⟨h1, h2⟩
    rw [hrdy] at h2
    exact absurd h2 (by decide)
  · intro s hs
    rcases List.mem_map.mp hs with ⟨m, hmf, rfl⟩
    rcases List.mem_filter.mp hmf with ⟨hmfound, hmrel⟩
    rcases mem_foundNodes.mp hmfound with ⟨i, hi, hf⟩
    exact ⟨m, findNode_mem hf, hmrel, rfl, (findNode_id hf) ▸ hi⟩
  · intro n hn hnid
    apply List.mem_map.mpr
    refine ⟨n, hn, ?_⟩
    unfold releaseApply
    rw [if_neg]
    intro hc
    rcases (Bool.and_eq_true _ _) ▸ hc with ⟨h1, h2⟩
    exact hnid (by simpa using h1)

/-- A READY node owned by alice, as the release tests create them. -/
def readyOwnedNode : Node :=
  { system_id := "node-ro", status := .READY, owner := some "alice" }

/-- Witness for C4: releasing alice's ALLOCATED node together with her READY
node releases the former (clearing owner/token/agent_name, leaving it
available) and leaves the latter untouched and unlisted. -/
theorem release_releases_and_skips_ready_witness :
    ∃ rel db2, release [allocNode, readyOwnedNode] alice ["node-al", "node-ro"] =
        (.ok rel, db2) ∧
      (∀ i ∈ ["node-al", "node-ro"], ∀ n,
        findNode [allocNode, readyOwnedNode] i = some n →
        releasableStatuses.contains n.status = true →
          n.system_id ∈ rel ∧ releaseOne n ∈ db2 ∧
          nodeAvailable (releaseOne n) = true ∧ (releaseOne n).owner = none ∧
          (releaseOne n).token = none ∧ (releaseOne n).agent_name = "") ∧
      (∀ n ∈ [allocNode, readyOwnedNode], n.status = .READY → n ∈ db2) ∧
      (∀ s ∈ rel, ∃ m ∈ [allocNode, readyOwnedNode],
        releasableStatuses.contains m.status = true ∧
          m.system_id = s ∧ s ∈ ["node-al", "node-ro"]) ∧
      (∀ n ∈ [allocNode, readyOwnedNode],
        n.system_id ∉ ["node-al", "node-ro"] → n ∈ db2) :=
  release_releases_and_skips_ready [allocNode, readyOwnedNode] alice
    ["node-al", "node-ro"] (by decide) (by decide) (by decide)

/-! ## Lemmas about the newest-complete-set computation -/

theorem pickNewest_some_ne_none (l : List BRSet) (m : BRSet) :
    pickNewest (some m) l ≠ none := by
  induction l generalizing m with
  | nil => simp [pickNewest]
  | cons s rest ih =>
    simp only [pickNewest]
    exact ih _

theorem pickNewest_mem (l : List BRSet) :
    ∀ (acc : Option BRSet) (m : BRSet), pickNewest acc l = some m →
      m ∈ l ∨ acc = some m := by
  induction l with
  | nil =>
    intro acc m h
    cases acc with
    | none => simp [pickNewest] at h
    | some a => exact Or.inr (by simpa [pickNewest] using h)
  | cons s rest ih =>
    intro acc m h
    cases acc with
    | none =>
      have h' : pickNewest (some s) rest = some m := by simpa [pickNewest] using h
      rcases ih _ _ h' with hm | hm
      · exact Or.inl (List.mem_cons_of_mem _ hm)
      · exact Or.inl (by rw [← Option.some.inj hm]; exact List.mem_cons_self _ _)
    | some a =>
      have h' : pickNewest (some (if a.set_id < s.set_id then s else a)) rest = some m := by
        simpa [pickNewest] using h
      rcases ih _ _ h' with hm | hm
      · exact Or.inl (List.mem_cons_of_mem _ hm)
      · by_cases hlt : a.set_id < s.set_id
        · rw [if_pos hlt] at hm
          exact Or.inl (by rw [← Option.some.inj hm]; exact List.mem_cons_self _ _)
        · rw [if_neg hlt] at hm
          exact Or.inr hm

theorem pickNewest_ge (l : List BRSet) :
    ∀ (acc : Option BRSet) (m : BRSet), pickNewest acc l = some m →
      (∀ t ∈ l, t.set_id ≤ m.set_id) ∧
      (∀ a, acc = some a → a.set_id ≤ m.set_id) := by
  induction l with
  | nil =>
    intro acc m h
    refine ⟨by simp, ?_⟩
    intro a ha
    cases acc with
    | none => exact absurd ha (by simp)
    | some b =>
      have hbm : b = m := Option.some.inj (by simpa [pickNewest] using h)
      have hab : b = a := Option.some.inj ha
      rw [← hab, hbm]
  | cons s rest ih =>
    intro acc m h
    cases acc with
    | none =>
      have h' : pickNewest (some s) rest = some m := by simpa [pickNewest] using h
      have hih := ih _ _ h'
      refine ⟨?_, ?_⟩
      · intro t ht
        rcases List.mem_cons.mp ht with rfl | ht'
        · exact hih.2 t rfl
        · exact hih.1 t ht'
      · intro a ha
        exact absurd ha (by simp)
    | some a =>
      have h' : pickNewest (some (if a.set_id < s.set_id then s else a)) rest = some m := by
        simpa [pickNewest] using h
      have hih := ih _ _ h'
      have hacc := hih.2 _ rfl
      refine ⟨?_, ?_⟩
      · intro t ht
        rcases List.mem_cons.mp ht with rfl | ht'
        · by_cases hlt : a.set_id < t.set_id
          · rw [if_pos hlt] at hacc
            exact hacc
          · rw [if_neg hlt] at hacc
            exact le_trans (Nat.le_of_not_lt hlt) hacc
        · exact hih.1 t ht'
      · intro b hb
        have hab : a = b := Option.some.inj hb
        subst hab
        by_cases hlt : a.set_id < s.set_id
        · rw [if_pos hlt] at hacc
          exact le_trans (Nat.le_of_lt hlt) hacc
        · rw [if_neg hlt] at hacc
          exact hacc

theorem newestComplete_spec {sets : List BRSet} {m : BRSet}
    (h : newestComplete sets = some m) :
    m ∈ sets ∧ m.complete = true ∧
      ∀ t ∈ sets, t.complete = true → t.set_id ≤ m.set_id := by
  unfold newestComplete at h
  have hge := pickNewest_ge _ _ _ h
  rcases pickNewest_mem _ _ _ h with hm | hm
  · rcases List.mem_filter.mp hm with ⟨h1, h2⟩
    exact ⟨h1, h2, fun t ht htc => hge.1 t (List.mem_filter.mpr ⟨ht, htc⟩)⟩
  · exact absurd hm (by simp)

theorem newestComplete_none {sets : List BRSet}
    (h : newestComplete sets = none) : ∀ s ∈ sets, s.complete = false := by
  intro s hs
  cases hc : s.complete
  · rfl
  · exfalso
    unfold newestComplete at h
    have hmem : s ∈ sets.filter (fun s => s.complete) := List.mem_filter.mpr ⟨hs, hc⟩
    cases hl : sets.filter (fun s => s.complete) with
    | nil => rw [hl] at hmem; cases hmem
    | cons a t =>
      rw [hl] at h
      simp only [pickNewest] at h
      exact pickNewest_some_ne_none t a h

/-- Whether a resource survives cleaning is exactly whether it has a complete
set. -/
theorem cleanSets_isEmpty (sets : List BRSet) :
    (!(cleanSets sets).isEmpty) = sets.any (fun s => s.complete) := by
  cases h : newestComplete sets with
  | none =>
    have hall := newestComplete_none h
    simp only [cleanSets, h, List.isEmpty_nil, Bool.not_true]
    rw [eq_comm, List.any_eq_false]
    intro s hs
    simp [hall s hs]
  | some m =>
    have hspec := newestComplete_spec h
    simp only [cleanSets, h, List.isEmpty_cons, Bool.not_false]
    rw [eq_comm, List.any_eq_true]
    exact ⟨m, hspec.1, hspec.2.1⟩

/-- C9: `resource_set_cleaner` retains, for each surviving resource, exactly
one set — a complete set that is at least as recent as every complete set the
resource had (every incomplete and every older complete set is gone); every
resource with at least one complete set survives (as its cleaned self), and
the number of surviving resources is exactly the number of resources that had
a complete set (resources left with none are deleted). -/
theorem resource_set_cleaner_keeps_newest_complete (rs : List Resource) :
    (∀ r' ∈ resource_set_cleaner rs, ∃ r ∈ rs, r'.res_id = r.res_id ∧
        ∃ s, r'.sets = [s] ∧ s ∈ r.sets ∧ s.complete = true ∧
          ∀ t ∈ r.sets, t.complete = true → t.set_id ≤ s.set_id) ∧
    (∀ r ∈ rs, ∀ s ∈ r.sets, s.complete = true →
        ({ r with sets := cleanSets r.sets } : Resource) ∈ resource_set_cleaner rs ∧
        cleanSets r.sets ≠ []) ∧
    (resource_set_cleaner rs).length =
      (rs.filter (fun r => r.sets.any (fun s => s.complete))).length := by
  refine ⟨?_, ?_, ?_⟩
  · intro r' hr'
    rcases List.mem_filter.mp hr' with ⟨hmap, hne⟩
    rcases List.mem_map.mp hmap with ⟨r, hr, heq⟩
    refine ⟨r, hr, ?_⟩
    subst heq
    cases h : newestComplete r.sets with
    | none => simp [cleanSets, h] at hne
    | some m =>
      have hspec := newestComplete_spec h
      exact ⟨rfl, m, by simp [cleanSets, h], hspec.1, hspec.2.1, hspec.2.2⟩
  · intro r hr s hs hc
    have hne : cleanSets r.sets ≠ [] := by
      cases h : newestComplete r.sets with
      | none => exact absurd (newestComplete_none h s hs) (by simp [hc])
      | some m => simp [cleanSets, h]
    refine ⟨List.mem_filter.mpr ⟨List.mem_map.mpr ⟨r, hr, rfl⟩, ?_⟩, hne⟩
    cases hl : cleanSets r.sets with
    | nil => exact absurd hl hne
    | cons a t => simp [hl]
  · unfold resource_set_cleaner
    rw [List.filter_map, List.length_map]
    congr 1
    apply List.filter_congr
    intro r hr
    exact cleanSets_isEmpty r.sets

/-- The complete sets 1 and 2 and the incomplete set 3 of the C9 witness. -/
def exSets : List BRSet := [⟨1, true⟩, ⟨2, true⟩, ⟨3, false⟩]

/-- A resource with two complete sets and an incomplete one. -/
def exRes1 : Resource := ⟨1, exSets⟩

/-- A resource with only an incomplete set. -/
def exRes2 : Resource := ⟨2, [⟨4, false⟩]⟩

/-- A resource with no sets at all. -/
def exRes3 : Resource := ⟨3, []⟩

/-- The resource table of the C9 witness. -/
def exResources : List Resource := [exRes1, exRes2, exRes3]

/-- Witness for C9: the resource with complete sets survives as its cleaned
self, and exactly one of the three resources survives. -/
theorem resource_set_cleaner_keeps_newest_complete_witness :
    (({ exRes1 with sets := cleanSets exRes1.sets } : Resource) ∈
        resource_set_cleaner exResources ∧ cleanSets exRes1.sets ≠ []) ∧
    (resource_set_cleaner exResources).length =
      (exResources.filter (fun r => r.sets.any (fun s => s.complete))).length :=
  ⟨(resource_set_cleaner_keeps_newest_complete exResources).2.1 exRes1 (by decide)
      ⟨2, true⟩ (by decide) rfl,
    (resource_set_cleaner_keeps_newest_complete exResources).2.2⟩

/-! ## Lemmas about the content-addressed store -/

/-- In a table whose ids are distinct, looking a member up by its id finds
exactly it. -/
theorem findLF_nodup {lfs : List LargeFile} {lf : LargeFile}
    (hnd : (lfs.map (fun l => l.lf_id)).Nodup) (hmem : lf ∈ lfs) :
    findLF lfs lf.lf_id = some lf := by
  have hs : (lfs.find? (fun l => l.lf_id == lf.lf_id)).isSome = true :=
    List.find?_isSome.mpr ⟨lf, hmem, by simp⟩
  obtain ⟨l', hl'⟩ := Option.isSome_iff_exists.mp hs
  have h1 : l'.lf_id = lf.lf_id := by simpa using List.find?_some hl'
  have h2 := List.mem_of_find?_eq_some hl'
  have heq : l' = lf := List.inj_on_of_nodup_map hnd h2 hmem h1
  rw [findLF, hl', heq]

/-- Reference counting across the repoint step: after every file with the
target's file_id is repointed to `j ≠ i`, something still references `i`
exactly when some other file already did. -/
theorem refCount_update {files : List ResourceFile} {fid j i : Nat} (hji : j ≠ i) :
    refCount (files.map (fun f =>
        if f.file_id == fid then { f with largefile := some j } else f)) i ≠ 0
      ↔ ∃ g ∈ files, g.file_id ≠ fid ∧ g.largefile = some i := by
  unfold refCount
  constructor
  · intro h
    have hne : (files.map (fun f =>
        if f.file_id == fid then { f with largefile := some j } else f)).filter
          (fun f => f.largefile == some i) ≠ [] := by
      intro hnil
      rw [hnil] at h
      exact h rfl
    rcases List.exists_mem_of_ne_nil _ hne with ⟨g, hg⟩
    rcases List.mem_filter.mp hg with ⟨hgm, hgi⟩
    rcases List.mem_map.mp hgm with ⟨g0, hg0, hupd⟩
    by_cases hfid : (g0.file_id == fid) = true
    · rw [if_pos hfid] at hupd
      rw [← hupd] at hgi
      simp at hgi
      exact absurd hgi hji
    · rw [if_neg hfid] at hupd
      subst hupd
      exact ⟨g0, hg0, by simpa using hfid, by simpa using hgi⟩
  · rintro ⟨g, hg, hfid, hgi⟩
    intro hzero
    have hmem : g ∈ (files.map (fun f =>
        if f.file_id == fid then { f with largefile := some j } else f)).filter
          (fun f => f.largefile == some i) := by
      apply List.mem_filter.mpr
      refine ⟨List.mem_map.mpr ⟨g, hg, ?_⟩, by simp [hgi]⟩
      rw [if_neg (by simpa using hfid)]
    rw [List.length_eq_zero] at hzero
    rw [hzero] at hmem
    cases hmem

/-- Deleting the rows with id `i` does not change the rows matching the
product, provided every id-`i` row mismatches the product. -/
theorem filter_match_erase {lfs : List LargeFile} {i : Nat} (p : Product)
    (hbad : ∀ l ∈ lfs, l.lf_id = i →
      (l.sha256 == p.sha256 && l.total_size == p.size) = false) :
    (lfs.filter (fun l => ! (l.lf_id == i))).filter
        (fun l => l.sha256 == p.sha256 && l.total_size == p.size) =
      lfs.filter (fun l => l.sha256 == p.sha256 && l.total_size == p.size) := by
  rw [List.filter_filter]
  apply List.filter_congr
  intro l hl
  by_cases hm : (l.sha256 == p.sha256 && l.total_size == p.size) = true
  · have hne : l.lf_id ≠ i := by
      intro heq
      rw [hbad l hl heq] at hm
      cases hm
    simp [hm, hne]
  · simp [Bool.not_eq_true _ ▸ hm]

/-- Conditional deletion never touches the file table. -/
theorem deleteIfUnref_files (st : Store) (prev : Option Nat) :
    (deleteIfUnref st prev).files = st.files := by
  cases prev with
  | none => rfl
  | some i =>
    show (if refCount st.files i == 0 then
        { st with largefiles := st.largefiles.filter (fun l => ! (l.lf_id == i)) }
      else st).files = st.files
    split
    · rfl
    · rfl

/-- Conditional deletion only removes rows. -/
theorem deleteIfUnref_largefiles_subset (st : Store) (prev : Option Nat) :
    ∀ l ∈ (deleteIfUnref st prev).largefiles, l ∈ st.largefiles := by
  intro l hl
  cases prev with
  | none => exact hl
  | some i =>
    have hl2 : l ∈ (if refCount st.files i == 0 then
        { st with largefiles := st.largefiles.filter (fun l => ! (l.lf_id == i)) }
      else st).largefiles := hl
    split at hl2
    · exact (List.mem_filter.mp hl2).1
    · exact hl2

/-- If some existing row matches the product's checksum and size, `insertNew`
schedules no write and creates no row (the result's rows all pre-exist). -/
theorem insertNew_reuse (st : Store) (p : Product) (rfile : ResourceFile)
    (prev : Option Nat)
    (hex : ∃ l ∈ st.largefiles, (l.sha256 == p.sha256 && l.total_size == p.size) = true) :
    (insertNew st p rfile prev).2 = false ∧
    ∀ l ∈ (insertNew st p rfile prev).1.largefiles, l ∈ st.largefiles := by
  obtain ⟨lf, hfind⟩ : ∃ lf, st.largefiles.find?
      (fun l => l.sha256 == p.sha256 && l.total_size == p.size) = some lf := by
    rcases hex with ⟨l, hl, hp⟩
    exact Option.isSome_iff_exists.mp (List.find?_isSome.mpr ⟨l, hl, hp⟩)
  have hpick : pickLF st p = (lf, st, false) := by
    unfold pickLF
    rw [hfind]
  refine ⟨?_, ?_⟩
  · simp only [insertNew, hpick]
  · simp only [insertNew, hpick]
    intro l hl
    have hsub := deleteIfUnref_largefiles_subset _ prev l hl
    exact hsub

/-- The surviving rows after conditional deletion of id `i`. -/
theorem deleteIfUnref_some_largefiles (st : Store) (i : Nat) :
    (deleteIfUnref st (some i)).largefiles =
      if refCount st.files i == 0
      then st.largefiles.filter (fun l => ! (l.lf_id == i))
      else st.largefiles := by
  show (if refCount st.files i == 0 then
      { st with largefiles := st.largefiles.filter (fun l => ! (l.lf_id == i)) }
    else st).largefiles = _
  split
  · rfl
  · rfl

/-- Rebinding on checksum mismatch: the target file ends up pointing at a row
carrying the product's checksum and size, the stale row survives exactly when
another file references it, and (if the store was content-addressed: at most
one matching row) exactly one matching row remains. -/
theorem insertNew_spec (st : Store) (p : Product) (rfile : ResourceFile)
    (i : Nat) (lf0 : LargeFile)
    (hrf : rfile ∈ st.files)
    (hfound : findLF st.largefiles i = some lf0)
    (hmis : (lf0.sha256 == p.sha256 && lf0.total_size == p.size) = false)
    (hnodup : (st.largefiles.map (fun l => l.lf_id)).Nodup)
    (hfresh : ∀ l ∈ st.largefiles, l.lf_id < st.next_id) :
    ∃ j lf',
      ({ rfile with largefile := some j } : ResourceFile) ∈
        (insertNew st p rfile (some i)).1.files ∧
      findLF (insertNew st p rfile (some i)).1.largefiles j = some lf' ∧
      lf'.sha256 = p.sha256 ∧ lf'.total_size = p.size ∧
      ((lf0 ∈ (insertNew st p rfile (some i)).1.largefiles) ↔
        ∃ g ∈ st.files, g.file_id ≠ rfile.file_id ∧ g.largefile = some i) ∧
      ((st.largefiles.filter
          (fun l => l.sha256 == p.sha256 && l.total_size == p.size)).length ≤ 1 →
        ((insertNew st p rfile (some i)).1.largefiles.filter
          (fun l => l.sha256 == p.sha256 && l.total_size == p.size)).length = 1) := by
  have hlf0mem : lf0 ∈ st.largefiles := List.mem_of_find?_eq_some hfound
  have hlf0id : lf0.lf_id = i := by simpa using List.find?_some hfound
  have hbad0 : ∀ l ∈ st.largefiles, l.lf_id = i →
      (l.sha256 == p.sha256 && l.total_size == p.size) = false := by
    intro l hl hli
    have heq : l = lf0 := List.inj_on_of_nodup_map hnodup hl hlf0mem (by rw [hli, hlf0id])
    rw [heq]
    exact hmis
  cases hfind : st.largefiles.find?
      (fun l => l.sha256 == p.sha256 && l.total_size == p.size) with
  | some lfM =>
    have hpick : pickLF st p = (lfM, st, false) := by
      unfold pickLF
      rw [hfind]
    have hMp := List.find?_some hfind
    have hMmem := List.mem_of_find?_eq_some hfind
    have hMsha : lfM.sha256 = p.sha256 := by
      have h := (Bool.and_eq_true _ _) ▸ hMp
      simpa using h.1
    have hMsize : lfM.total_size = p.size := by
      have h := (Bool.and_eq_true _ _) ▸ hMp
      simpa using h.2
    have hji : lfM.lf_id ≠ i := by
      intro h
      rw [hbad0 lfM hMmem h] at hMp
      cases hMp
    have hins : insertNew st p rfile (some i) =
        (deleteIfUnref { st with files := st.files.map (fun f =>
          if f.file_id == rfile.file_id
          then { f with largefile := some lfM.lf_id } else f) }
          (some i), false) := by
      simp only [insertNew, hpick]
    rw [hins]
    refine ⟨lfM.lf_id, lfM, ?_, ?_, hMsha, hMsize, ?_, ?_⟩
    · rw [deleteIfUnref_files]
      exact List.mem_map.mpr ⟨rfile, hrf, by simp⟩
    · rw [deleteIfUnref_some_largefiles]
      split
      · exact findLF_nodup
          (List.Nodup.sublist ((List.filter_sublist _).map _) hnodup)
          (List.mem_filter.mpr ⟨hMmem, by simp [hji]⟩)
      · exact findLF_nodup hnodup hMmem
    · rw [deleteIfUnref_some_largefiles]
      constructor
      · intro hmem
        split at hmem
        · rcases List.mem_filter.mp hmem with ⟨_, hpred⟩
          rw [hlf0id] at hpred
          simp at hpred
        · next hrc =>
          exact (refCount_update hji).mp (fun h0 => hrc (beq_iff_eq.mpr h0))
      · intro hex2
        have hne := (refCount_update hji).mpr hex2
        split
        · next hrc =>
          exact absurd (beq_iff_eq.mp hrc) hne
        · exact hlf0mem
    · intro hle
      have hMfil : lfM ∈ st.largefiles.filter
          (fun l => l.sha256 == p.sha256 && l.total_size == p.size) :=
        List.mem_filter.mpr ⟨hMmem, hMp⟩
      have hpos : 0 < (st.largefiles.filter
          (fun l => l.sha256 == p.sha256 && l.total_size == p.size)).length :=
        List.length_pos.mpr (List.ne_nil_of_mem hMfil)
      have hlen : (st.largefiles.filter
          (fun l => l.sha256 == p.sha256 && l.total_size == p.size)).length = 1 :=
        Nat.le_antisymm hle hpos
      rw [deleteIfUnref_some_largefiles]
      split
      · rw [filter_match_erase p hbad0]
        exact hlen
      · exact hlen
  | none =>
    have hpick : pickLF st p =
        (⟨st.next_id, p.sha256, p.size⟩,
          ({ st with
              next_id := st.next_id + 1,
              largefiles := st.largefiles ++ [⟨st.next_id, p.sha256, p.size⟩] } : Store),
          true) := by
      unfold pickLF
      rw [hfind]
    have hnone := List.find?_eq_none.mp hfind
    have hji : st.next_id ≠ i := by
      have hlt : i < st.next_id := by
        rw [← hlf0id]
        exact hfresh lf0 hlf0mem
      omega
    have hNmem : (⟨st.next_id, p.sha256, p.size⟩ : LargeFile) ∈
        st.largefiles ++ [⟨st.next_id, p.sha256, p.size⟩] :=
      List.mem_append.mpr (Or.inr (by simp))
    have hnodup2 : ((st.largefiles ++ [(⟨st.next_id, p.sha256, p.size⟩ : LargeFile)]).map
        (fun l => l.lf_id)).Nodup := by
      rw [List.map_append, List.nodup_append]
      refine ⟨hnodup, by simp, ?_⟩
      intro a ha hb
      rcases List.mem_map.mp ha with ⟨l, hl, rfl⟩
      have hlt := hfresh l hl
      have heq : l.lf_id = st.next_id := by simpa using hb
      omega
    have hins : insertNew st p rfile (some i) =
        (deleteIfUnref
          ({ st with
              next_id := st.next_id + 1,
              largefiles := st.largefiles ++ [⟨st.next_id, p.sha256, p.size⟩],
              files := st.files.map (fun f =>
                if f.file_id == rfile.file_id
                then { f with largefile := some st.next_id } else f) } : Store)
          (some i), true) := by
      simp only [insertNew, hpick]
    rw [hins]
    refine ⟨st.next_id, ⟨st.next_id, p.sha256, p.size⟩, ?_, ?_, rfl, rfl, ?_, ?_⟩
    · rw [deleteIfUnref_files]
      exact List.mem_map.mpr ⟨rfile, hrf, by simp⟩
    · rw [deleteIfUnref_some_largefiles]
      split
      · exact findLF_nodup
          (List.Nodup.sublist ((List.filter_sublist _).map _) hnodup2)
          (List.mem_filter.mpr ⟨hNmem, by simp [hji]⟩)
      · exact findLF_nodup hnodup2 hNmem
    · rw [deleteIfUnref_some_largefiles]
      constructor
      · intro hmem
        split at hmem
        · rcases List.mem_filter.mp hmem with ⟨_, hpred⟩
          rw [hlf0id] at hpred
          simp at hpred
        · next hrc =>
          exact (refCount_update hji).mp (fun h0 => hrc (beq_iff_eq.mpr h0))
      · intro hex2
        have hne := (refCount_update hji).mpr hex2
        split
        · next hrc =>
          exact absurd (beq_iff_eq.mp hrc) hne
        · exact List.mem_append.mpr (Or.inl hlf0mem)
    · intro hle
      have hbadall : ∀ l ∈ st.largefiles ++ [(⟨st.next_id, p.sha256, p.size⟩ : LargeFile)],
          l.lf_id = i → (l.sha256 == p.sha256 && l.total_size == p.size) = false := by
        intro l hl hli
        rcases List.mem_append.mp hl with h | h
        · exact hbad0 l h hli
        · have heq : l = ⟨st.next_id, p.sha256, p.size⟩ := by simpa using h
          rw [heq] at hli
          exact absurd hli hji
      have hfilbase : (st.largefiles ++ [(⟨st.next_id, p.sha256, p.size⟩ : LargeFile)]).filter
          (fun l => l.sha256 == p.sha256 && l.total_size == p.size) =
            [⟨st.next_id, p.sha256, p.size⟩] := by
        rw [List.filter_append, List.filter_eq_nil_iff.mpr hnone]
        simp
      rw [deleteIfUnref_some_largefiles]
      split
      · rw [filter_match_erase p hbadall, hfilbase]
        rfl
      · rw [hfilbase]
        rfl

/-- Dedup: whenever some `LargeFile` row already matches the product's
checksum and size, `insert` schedules no write and creates no row. -/
theorem insert_dedup (st : Store) (p : Product)
    (hex : ∃ l ∈ st.largefiles, (l.sha256 == p.sha256 && l.total_size == p.size) = true) :
    (insert st p).2 = false ∧ ∀ l ∈ (insert st p).1.largefiles, l ∈ st.largefiles := by
  cases hff : st.files.find? (fun f => f.filetype == p.filetype) with
  | some f =>
    have hg : getOrCreateFile st p = (f, st) := by
      unfold getOrCreateFile
      rw [hff]
    cases hbind : f.largefile.bind (findLF st.largefiles) with
    | some lf =>
      by_cases hm : (lf.sha256 == p.sha256 && lf.total_size == p.size) = true
      · have hins : insert st p = (st, false) := by
          simp only [insert, hg]
          rw [hbind]
          simp only [if_pos hm]
        rw [hins]
        exact ⟨rfl, fun l hl => hl⟩
      · have hins : insert st p = insertNew st p f (some lf.lf_id) := by
          simp only [insert, hg]
          rw [hbind]
          simp only [if_neg hm]
        rw [hins]
        exact insertNew_reuse st p f _ hex
    | none =>
      have hins : insert st p = insertNew st p f none := by
        simp only [insert, hg]
        rw [hbind]
      rw [hins]
      exact insertNew_reuse st p f none hex
  | none =>
    have hg : getOrCreateFile st p =
        (⟨st.next_id, p.filetype, none⟩,
          { st with next_id := st.next_id + 1, files := st.files ++ [⟨st.next_id, p.filetype, none⟩] }) := by
      unfold getOrCreateFile
      rw [hff]
    have hins : insert st p = insertNew
        { st with next_id := st.next_id + 1, files := st.files ++ [⟨st.next_id, p.filetype, none⟩] }
        p ⟨st.next_id, p.filetype, none⟩ none := by
      simp only [insert, hg]
      rfl
    rw [hins]
    exact insertNew_reuse _ p _ none hex

/-- C8: `insert` is content-addressed.  (a) When a `LargeFile` row matching
the product's checksum and size already exists — in particular when the
file's own backing row matches — that row is reused: no content write is
scheduled and no second row is created (every row afterwards already
existed).  (b) When the file's backing row mismatches the product's checksum,
the file ends up backed by a row carrying the new checksum and size, the
stale row is deleted exactly when no other file references it, and (the store
holding at most one matching row, as content-addressing guarantees) exactly
one row with the new checksum+size remains. -/
theorem insert_content_addressed (st : Store) (p : Product) :
    ((∃ l ∈ st.largefiles, l.sha256 = p.sha256 ∧ l.total_size = p.size) →
      (insert st p).2 = false ∧ ∀ l ∈ (insert st p).1.largefiles, l ∈ st.largefiles) ∧
    (∀ f i lf0,
      st.files.find? (fun g => g.filetype == p.filetype) = some f →
      f.largefile = some i →
      findLF st.largefiles i = some lf0 →
      (lf0.sha256 == p.sha256 && lf0.total_size == p.size) = false →
      (st.largefiles.map (fun l => l.lf_id)).Nodup →
      (∀ l ∈ st.largefiles, l.lf_id < st.next_id) →
      ∃ j lf',
        ({ f with largefile := some j } : ResourceFile) ∈ (insert st p).1.files ∧
        findLF (insert st p).1.largefiles j = some lf' ∧
        lf'.sha256 = p.sha256 ∧ lf'.total_size = p.size ∧
        ((lf0 ∈ (insert st p).1.largefiles) ↔
          ∃ g ∈ st.files, g.file_id ≠ f.file_id ∧ g.largefile = some i) ∧
        ((st.largefiles.filter
            (fun l => l.sha256 == p.sha256 && l.total_size == p.size)).length ≤ 1 →
          ((insert st p).1.largefiles.filter
            (fun l => l.sha256 == p.sha256 && l.total_size == p.size)).length = 1)) := by
  constructor
  · intro hex
    apply insert_dedup
    rcases hex with ⟨l, hl, h1, h2⟩
    exact ⟨l, hl, by simp [h1, h2]⟩
  · intro f i lf0 hfile hlf hfound hmis hnodup hfresh
    have hg : getOrCreateFile st p = (f, st) := by
      unfold getOrCreateFile
      rw [hfile]
    have hlf0id : lf0.lf_id = i := by simpa using List.find?_some hfound
    have hins : insert st p = insertNew st p f (some i) := by
      simp only [insert, hg]
      rw [hlf]
      show (match findLF st.largefiles i with
        | some lf =>
          if lf.sha256 == p.sha256 && lf.total_size == p.size then (st, false)
          else insertNew st p f (some lf.lf_id)
        | none => insertNew st p f none) = insertNew st p f (some i)
      rw [hfound]
      show (if lf0.sha256 == p.sha256 && lf0.total_size == p.size then (st, false)
            else insertNew st p f (some lf0.lf_id)) = _
      rw [if_neg (by simp [hmis]), hlf0id]
    rw [hins]
    exact insertNew_spec st p f i lf0 (List.mem_of_find?_eq_some hfile)
      hfound hmis hnodup hfresh

/-- A one-file store whose file is already backed by a matching row. -/
def exStoreA : Store := ⟨20, [⟨1, "shaA", 100⟩], [⟨10, "root-image", some 1⟩]⟩

/-- A product identical in checksum and size to exStoreA's existing row. -/
def exProdA : Product := ⟨"root-image", "shaA", 100⟩

/-- A store whose root-image file is backed by row 1 (sha1), which a second
file also references; row 2 carries sha2. -/
def exStoreB : Store :=
  ⟨20, [⟨1, "sha1", 100⟩, ⟨2, "sha2", 200⟩],
    [⟨10, "root-image", some 1⟩, ⟨11, "other", some 1⟩]⟩

/-- A product whose checksum mismatches exStoreB's root-image backing row. -/
def exProdB : Product := ⟨"root-image", "sha2", 200⟩

/-- Witness for C8: inserting a matching product schedules nothing and adds
no row; inserting a mismatching product rebinds the file to the sha2 row and
keeps the stale sha1 row because the other file still references it. -/
theorem insert_content_addressed_witness :
    ((insert exStoreA exProdA).2 = false ∧
      ∀ l ∈ (insert exStoreA exProdA).1.largefiles, l ∈ exStoreA.largefiles) ∧
    (∃ j lf',
      ({ (⟨10, "root-image", some 1⟩ : ResourceFile) with largefile := some j } :
          ResourceFile) ∈ (insert exStoreB exProdB).1.files ∧
      findLF (insert exStoreB exProdB).1.largefiles j = some lf' ∧
      lf'.sha256 = exProdB.sha256 ∧ lf'.total_size = exProdB.size ∧
      (((⟨1, "sha1", 100⟩ : LargeFile) ∈ (insert exStoreB exProdB).1.largefiles) ↔
        ∃ g ∈ exStoreB.files,
          g.file_id ≠ (⟨10, "root-image", some 1⟩ : ResourceFile).file_id ∧
          g.largefile = some 1) ∧
      ((exStoreB.largefiles.filter
          (fun l => l.sha256 == exProdB.sha256 && l.total_size == exProdB.size)).length ≤ 1 →
        ((insert exStoreB exProdB).1.largefiles.filter
          (fun l => l.sha256 == exProdB.sha256 && l.total_size == exProdB.size)).length = 1)) :=
  ⟨(insert_content_addressed exStoreA exProdA).1 ⟨⟨1, "shaA", 100⟩, by decide, rfl, rfl⟩,
    (insert_content_addressed exStoreB exProdB).2 ⟨10, "root-image", some 1⟩ 1
      ⟨1, "sha1", 100⟩ (by decide) rfl (by decide) (by decide) (by decide) (by decide)⟩

end Maas
